import Mathlib

set_option maxRecDepth 100000

/-!
Verification of the sharded counter engine of the `contatori` repository.

The Rust sources are shallowly embedded: each counter variant's shard array
(`[CachePadded<AtomicUsize>; NUM_COMPONENTS]`) becomes a `List Nat` of machine
words; the calling worker's slot (`THREAD_SLOT_INDEX`) becomes an explicit
`slot` argument; relaxed atomic read-modify-write operations executed by a
single worker become pure state transformations; the platform word (`usize` /
`u64` on a 64-bit target) is `Nat` reduced modulo `2 ^ 64` exactly where the
machine wraps.  Stateful reads return the result together with the new state.
Floating-point values (`f64`) are modelled as exact rationals `ℚ`; every
concrete scenario proved about them involves only values and quotients that
IEEE-754 double arithmetic represents and computes exactly.
-/

namespace Contatori

/-- Modulus of the platform word: `usize` / `u64` on a 64-bit target. -/
def W : Nat := 2 ^ 64

/-- Largest platform word, `usize::MAX` on a 64-bit target. -/
def USIZE_MAX : Nat := W - 1

/-- Number of shards (slots) used by each counter
(`src/src/contatori.rs`, `NUM_COMPONENTS`). -/
def NUM_COMPONENTS : Nat := 64

/-- Wrapping addition of platform words, the effect of a relaxed `fetch_add`
(and of `+` / `+=` on `usize` in release mode). -/
def wadd (a b : Nat) : Nat := (a + b) % W

/-- `CounterValue` (`src/src/contatori.rs`): the tagged union returned by the
`Observable` read methods.  The `Float` payload (`f64`, used by `Rate`) is
modelled as an exact rational. -/
inductive CounterValue where
  | Unsigned : Nat → CounterValue
  | Signed : Int → CounterValue
  | Float : ℚ → CounterValue
deriving DecidableEq

/-- `get_next_slot_id` (`src/src/contatori.rs` lines 91-93): one relaxed
`fetch_add(1)` on the global `NEXT_SLOT_ID` counter (returning the old value,
wrapping at the word size) followed by `% NUM_COMPONENTS`.  The input is the
current global counter; the output is the assigned slot index and the new
global counter. -/
def get_next_slot_id (next : Nat) : Nat × Nat :=
  (next % NUM_COMPONENTS, (next + 1) % W)

/-- `THREAD_SLOT_INDEX` (`src/src/contatori.rs` lines 73-79): a lazily
initialized thread-local.  One read of the thread-local is modelled as a
function of the global counter and the calling worker's cache: if the cache is
filled the cached index is returned and nothing changes; on the first read the
initializer `get_next_slot_id()` runs.  Returns the index, the new global
counter and the new cache. -/
def current_slot (next : Nat) (cache : Option Nat) : Nat × Nat × Option Nat :=
  match cache with
  | some i => (i, next, some i)
  | none =>
      let r := get_next_slot_id next
      (r.1, r.2, some r.1)

/-! ### Monotone counter (`src/src/counters/monotone.rs`) -/

/-- `Monotone`: a name and 64 cache-padded `AtomicUsize` shards. -/
structure Monotone where
  name : String
  components : List Nat
deriving DecidableEq

/-- `Monotone::new()`: all shards zero, empty name. -/
def Monotone.new : Monotone :=
  ⟨"", List.replicate NUM_COMPONENTS 0⟩

/-- `Monotone::add`: relaxed wrapping `fetch_add` on the calling worker's
shard. -/
def Monotone.add (c : Monotone) (slot : Nat) (v : Nat) : Monotone :=
  { c with components := c.components.set slot (wadd (c.components.getD slot 0) v) }

/-- `Monotone::total_value` (lines 164-171): load every shard and sum
(`usize` addition, wrapping). -/
def Monotone.total_value (c : Monotone) : Nat :=
  c.components.foldl wadd 0

/-- `Observable for Monotone::value`. -/
def Monotone.value (c : Monotone) : CounterValue :=
  CounterValue.Unsigned c.total_value

/-- `sealed::Resettable for Monotone::value_and_reset` (lines 199-208): the
body is `CounterValue::Unsigned(self.total_value() as u64)`, a pure read that
performs no store, hence the state component is the unchanged receiver. -/
def Monotone.value_and_reset (c : Monotone) : CounterValue × Monotone :=
  (CounterValue.Unsigned c.total_value, c)

/-! ### Unsigned counter (`src/src/counters/unsigned.rs`) -/

/-- `Unsigned`: a name and 64 cache-padded `AtomicUsize` shards. -/
structure Unsigned where
  name : String
  components : List Nat
deriving DecidableEq

/-- `Unsigned::new()`: all shards zero, empty name. -/
def Unsigned.new : Unsigned :=
  ⟨"", List.replicate NUM_COMPONENTS 0⟩

/-- `Unsigned::add`: relaxed wrapping `fetch_add` on the calling worker's
shard. -/
def Unsigned.add (c : Unsigned) (slot : Nat) (v : Nat) : Unsigned :=
  { c with components := c.components.set slot (wadd (c.components.getD slot 0) v) }

/-- `Unsigned::total_value`: load every shard and sum (wrapping). -/
def Unsigned.total_value (c : Unsigned) : Nat :=
  c.components.foldl wadd 0

/-- `Observable for Unsigned::value`. -/
def Unsigned.value (c : Unsigned) : CounterValue :=
  CounterValue.Unsigned c.total_value

/-- The loop body of `Unsigned::total_value_and_reset` (lines 209-215):
`for counter in components { total += counter.swap(0) }`.  Walks the shard
list left to right accumulating the wrapping total while every visited cell is
swapped to `0`; returns the total and the post-swap shard list. -/
def swap_reset_loop : Nat → List Nat → Nat × List Nat
  | total, [] => (total, [])
  | total, x :: xs =>
      let r := swap_reset_loop (wadd total x) xs
      (r.1, 0 :: r.2)

/-- `sealed::Resettable for Unsigned::value_and_reset` (lines 234-242),
via `total_value_and_reset`. -/
def Unsigned.value_and_reset (c : Unsigned) : CounterValue × Unsigned :=
  let r := swap_reset_loop 0 c.components
  (CounterValue.Unsigned r.1, { c with components := r.2 })

/-! ### Minimum tracker (`src/src/counters/minimum.rs`) -/

/-- `Minimum`: a name and 64 shards, each initialized to the `usize::MAX`
sentinel. -/
structure Minimum where
  name : String
  components : List Nat
deriving DecidableEq

/-- `Minimum::new()`: every shard at the `usize::MAX` sentinel. -/
def Minimum.new : Minimum :=
  ⟨"", List.replicate NUM_COMPONENTS USIZE_MAX⟩

/-- `Minimum::observe` (lines 122-136): load the calling worker's shard, then
a compare-exchange retry loop that runs `while value < current`.  Executed by
a single worker the weak compare-exchange succeeds on its first attempt, so
the loop stores `value` exactly when it is strictly smaller than the shard's
current value and otherwise leaves the shard untouched. -/
def Minimum.observe (c : Minimum) (slot : Nat) (v : Nat) : Minimum :=
  if v < c.components.getD slot USIZE_MAX then
    { c with components := c.components.set slot v }
  else
    c

/-- `Minimum::raw_value` (lines 155-161): load every shard, take the iterator
minimum, `unwrap_or(usize::MAX)`. -/
def Minimum.raw_value (c : Minimum) : Nat :=
  (c.components.min?).getD USIZE_MAX

/-- `Observable for Minimum::value`. -/
def Minimum.value (c : Minimum) : CounterValue :=
  CounterValue.Unsigned c.raw_value

/-- The loop of `Minimum::raw_value_and_reset` (lines 168-177): swap every
shard to `usize::MAX`, keeping the smallest swapped-out value in `min`. -/
def min_swap_reset_loop : Nat → List Nat → Nat × List Nat
  | m, [] => (m, [])
  | m, x :: xs =>
      let m' := if x < m then x else m
      let r := min_swap_reset_loop m' xs
      (r.1, USIZE_MAX :: r.2)

/-- `Observable for Minimum::value_and_reset` (lines 193-195). -/
def Minimum.value_and_reset (c : Minimum) : CounterValue × Minimum :=
  let r := min_swap_reset_loop USIZE_MAX c.components
  (CounterValue.Unsigned r.1, { c with components := r.2 })

/-! ### Maximum tracker (`src/src/counters/maximum.rs`) -/

/-- `Maximum`: a name and 64 shards, each initialized to the `usize::MIN`
(zero) sentinel. -/
structure Maximum where
  name : String
  components : List Nat
deriving DecidableEq

/-- `Maximum::new()`: every shard at the `usize::MIN` (zero) sentinel. -/
def Maximum.new : Maximum :=
  ⟨"", List.replicate NUM_COMPONENTS 0⟩

/-- `Maximum::observe` (lines 116-132): load the calling worker's shard, then
a compare-exchange retry loop that runs `while value > current`.  Executed by
a single worker the weak compare-exchange succeeds on its first attempt, so
the loop stores `value` exactly when it is strictly greater than the shard's
current value and otherwise leaves the shard untouched. -/
def Maximum.observe (c : Maximum) (slot : Nat) (v : Nat) : Maximum :=
  if c.components.getD slot 0 < v then
    { c with components := c.components.set slot v }
  else
    c

/-- `Maximum::raw_value` (lines 138-151): load every shard, take the iterator
maximum, `unwrap_or(usize::MIN)`; a result equal to the `usize::MIN` sentinel
means no data and is mapped to `None`. -/
def Maximum.raw_value (c : Maximum) : Option Nat :=
  let m := (c.components.max?).getD 0
  if m = 0 then none else some m

/-- `Observable for Maximum::value` (lines 182-184):
`raw_value().unwrap_or(0)`. -/
def Maximum.value (c : Maximum) : CounterValue :=
  CounterValue.Unsigned (c.raw_value.getD 0)

/-- The loop of `Maximum::raw_value_and_reset` (lines 160-174): swap every
shard to `usize::MIN`, keeping the largest swapped-out value in `max`. -/
def max_swap_reset_loop : Nat → List Nat → Nat × List Nat
  | m, [] => (m, [])
  | m, x :: xs =>
      let m' := if m < x then x else m
      let r := max_swap_reset_loop m' xs
      (r.1, 0 :: r.2)

/-- `sealed::Resettable for Maximum::value_and_reset` (lines 193-202):
the aggregated swapped-out maximum, `None` (exposed as `0`) if it is still the
sentinel. -/
def Maximum.value_and_reset (c : Maximum) : CounterValue × Maximum :=
  let r := max_swap_reset_loop 0 c.components
  (CounterValue.Unsigned r.1, { c with components := r.2 })

/-! ### Average counter (`src/src/counters/average.rs`) -/

/-- `Average`: a name and 64 cache-padded `SumCount` pairs
(first component the sum, second the count). -/
structure Average where
  name : String
  components : List (Nat × Nat)
deriving DecidableEq

/-- `Average::new()`: every shard's sum and count zero. -/
def Average.new : Average :=
  ⟨"", List.replicate NUM_COMPONENTS (0, 0)⟩

/-- `Average::observe` (lines 150-155): wrapping `fetch_add(value)` on the
local sum and `fetch_add(1)` on the local count. -/
def Average.observe (c : Average) (slot : Nat) (v : Nat) : Average :=
  let p := c.components.getD slot (0, 0)
  { c with components := c.components.set slot (wadd p.1 v, wadd p.2 1) }

/-- `Average::observe_many` (lines 174-179): wrapping `fetch_add(sum)` on the
local sum and `fetch_add(count)` on the local count. -/
def Average.observe_many (c : Average) (slot : Nat) (sum count : Nat) : Average :=
  let p := c.components.getD slot (0, 0)
  { c with components := c.components.set slot (wadd p.1 sum, wadd p.2 count) }

/-- `Average::sum` (lines 236-242): total of the shard sums (wrapping). -/
def Average.sum (c : Average) : Nat :=
  (c.components.map Prod.fst).foldl wadd 0

/-- `Average::count` (lines 245-251): total of the shard counts (wrapping). -/
def Average.count (c : Average) : Nat :=
  (c.components.map Prod.snd).foldl wadd 0

/-- `Average::average` (lines 270-278): `None` when the total count is zero,
otherwise the truncating `usize` division of total sum by total count. -/
def Average.average (c : Average) : Option Nat :=
  let total_sum := c.sum
  let total_count := c.count
  if total_count = 0 then none else some (total_sum / total_count)

/-- `Average::average_f64` (lines 296-305): `None` when the total count is
zero, otherwise the `f64` quotient, modelled as the exact rational. -/
def Average.average_f64 (c : Average) : Option ℚ :=
  let total_sum := c.sum
  let total_count := c.count
  if total_count = 0 then none else some ((total_sum : ℚ) / (total_count : ℚ))

/-- The loop of `Average::raw_value_and_reset` (lines 309-317): swap every
shard's sum and count to zero while accumulating wrapping totals. -/
def sum_count_swap_reset_loop : Nat → Nat → List (Nat × Nat) → (Nat × Nat) × List (Nat × Nat)
  | ts, tc, [] => ((ts, tc), [])
  | ts, tc, p :: rest =>
      let r := sum_count_swap_reset_loop (wadd ts p.1) (wadd tc p.2) rest
      (r.1, (0, 0) :: r.2)

/-- `Average::sum_count_and_reset` (lines 342-344). -/
def Average.sum_count_and_reset (c : Average) : (Nat × Nat) × Average :=
  let r := sum_count_swap_reset_loop 0 0 c.components
  (r.1, { c with components := r.2 })

/-- `Average::average_and_reset` (lines 367-374). -/
def Average.average_and_reset (c : Average) : Option Nat × Average :=
  let r := c.sum_count_and_reset
  (if r.1.2 = 0 then none else some (r.1.1 / r.1.2), r.2)

/-- `Observable for Average::value` (lines 382-384):
`average().unwrap_or(0)`. -/
def Average.value (c : Average) : CounterValue :=
  CounterValue.Unsigned (c.average.getD 0)

/-- `Observable for Average::value_and_reset` (lines 390-392):
`average_and_reset().unwrap_or(0)`. -/
def Average.value_and_reset (c : Average) : CounterValue × Average :=
  let r := c.average_and_reset
  (CounterValue.Unsigned (r.1.getD 0), r.2)

/-! ### Rate counter (`src/src/counters/rate.rs`) -/

/-- `Rate`: a name, 64 monotone shards, the last sampled total
(`AtomicU64 last_value`) and the last sampling instant
(`AtomicOptionInstant last_instant`, `none` = never sampled).  Instants are
modelled as rational timestamps in seconds. -/
structure Rate where
  name : String
  components : List Nat
  last_value : Nat
  last_instant : Option ℚ
deriving DecidableEq

/-- `Rate::new()` (lines 159-167): all shards zero, `last_value` zero,
`last_instant` none. -/
def Rate.new : Rate :=
  ⟨"", List.replicate NUM_COMPONENTS 0, 0, none⟩

/-- `Rate::add` (lines 202-206): relaxed wrapping `fetch_add` on the calling
worker's shard. -/
def Rate.add (c : Rate) (slot : Nat) (v : Nat) : Rate :=
  { c with components := c.components.set slot (wadd (c.components.getD slot 0) v) }

/-- `Rate::total_value` (lines 220-226): load every shard and sum
(wrapping). -/
def Rate.total_value (c : Rate) : Nat :=
  c.components.foldl wadd 0

/-- `Rate::rate` (lines 260-291).  `now` is the instant produced by
`Instant::now()` at the head of the call.  With a prior instant: `elapsed` is
`now.duration_since(last_time)` (zero when `now` is not later), the current
total is swapped into `last_value` obtaining the old one, the timestamp is
stored, and the result is the saturating difference over the elapsed seconds,
or `0.0` when no time elapsed.  Without a prior instant the current total and
`now` are recorded as baseline and `0.0` is returned.  `f64` arithmetic is
modelled exactly over `ℚ`; `usize::saturating_sub` is `Nat` subtraction. -/
def Rate.rate (c : Rate) (now : ℚ) : ℚ × Rate :=
  let current_value := c.total_value
  match c.last_instant with
  | some last_time =>
      let elapsed_secs : ℚ := max (now - last_time) 0
      let last_val := c.last_value
      let c' := { c with last_value := current_value, last_instant := some now }
      if 0 < elapsed_secs then
        (((current_value - last_val : Nat) : ℚ) / elapsed_secs, c')
      else
        (0, c')
  | none =>
      (0, { c with last_value := current_value, last_instant := some now })

/-- `Observable for Rate::value` (lines 298-301):
`CounterValue::Float(self.rate())`. -/
def Rate.value (c : Rate) (now : ℚ) : CounterValue × Rate :=
  let r := c.rate now
  (CounterValue.Float r.1, r.2)

/-- `sealed::Resettable for Rate::value_and_reset`:
`CounterValue::Float(self.rate())`. -/
def Rate.value_and_reset (c : Rate) (now : ℚ) : CounterValue × Rate :=
  let r := c.rate now
  (CounterValue.Float r.1, r.2)

/-! ### Adapters (`src/src/adapters/resettable.rs`, `non_resettable.rs`)

The adapters are generic over the wrapped counter `T`.  A wrapped counter is
embedded as its state type together with its two `Observable` read methods,
both written in state-passing style (a method that is a pure read returns the
unchanged state). -/

/-- The `Observable` read interface of a wrapped counter `T`: `value()` and
`value_and_reset()` as state transformers over the counter state `σ`. -/
structure CounterOps (σ : Type) where
  value : σ → CounterValue × σ
  value_and_reset : σ → CounterValue × σ

/-- `Observable for Resettable<T>::value` (`resettable.rs` lines 146-158):
`self.inner.value_and_reset()`. -/
def Resettable.value (ops : CounterOps σ) (s : σ) : CounterValue × σ :=
  ops.value_and_reset s

/-- `Observable for NonResettable<T>::value` (`non_resettable.rs` lines
152-155): `self.inner.value()`. -/
def NonResettable.value (ops : CounterOps σ) (s : σ) : CounterValue × σ :=
  ops.value s

/-- `Observable for NonResettable<T>::value_and_reset` (`non_resettable.rs`
lines 161-164): `self.inner.value()`, never the inner reset-read. -/
def NonResettable.value_and_reset (ops : CounterOps σ) (s : σ) : CounterValue × σ :=
  ops.value s

/-- `Unsigned` seen through the `Observable` interface; `value()` is a pure
read. -/
def Unsigned.ops : CounterOps Unsigned :=
  ⟨fun s => (s.value, s), Unsigned.value_and_reset⟩

/-- `Monotone` seen through the `Observable` interface; both reads are
pure. -/
def Monotone.ops : CounterOps Monotone :=
  ⟨fun s => (s.value, s), Monotone.value_and_reset⟩

/-- `Rate` seen through the `Observable` interface at a fixed call instant
`now`; both reads call `rate()`, which mutates the sampling baseline. -/
def Rate.ops (now : ℚ) : CounterOps Rate :=
  ⟨fun s => s.value now, fun s => s.value_and_reset now⟩

/-! ### Labels (`src/src/adapters/labeled.rs`) -/

/-- The body shared by `Labeled::with_label` (lines 135-146) and
`Labeled::add_label` (lines 159-168): find the position of the first entry
whose key equals `key`; if found, assign the new value to that entry's value
field in place; otherwise push `(key, value)` at the end.  The recursion walks
the list exactly as the position search does: at the first matching key the
entry's value is replaced (its key, being equal to `key`, is kept) and the
tail is untouched; if no key matches the new pair is appended. -/
def add_label : List (String × String) → String → String → List (String × String)
  | [], key, value => [(key, value)]
  | (k, v) :: rest, key, value =>
      if k = key then (k, value) :: rest
      else (k, v) :: add_label rest key value

/-- `Labeled::with_label` (lines 135-146): identical body to `add_label`,
in builder (self-consuming) form. -/
def with_label (labels : List (String × String)) (key value : String) :
    List (String × String) :=
  match labels with
  | [] => [(key, value)]
  | (k, v) :: rest =>
      if k = key then (k, value) :: rest
      else (k, v) :: with_label rest key value

/-! ### Helper lemmas about wrapping folds -/

theorem wadd_lt (a b : Nat) : wadd a b < W := by
  have : 0 < W := by decide
  exact Nat.mod_lt _ this

theorem foldl_wadd_eq (l : List Nat) (a : Nat) (h : a < W) :
    l.foldl wadd a = (a + l.sum) % W := by
  induction l generalizing a with
  | nil => simpa using (Nat.mod_eq_of_lt h).symm
  | cons x xs ih =>
      simp only [List.foldl_cons, List.sum_cons]
      rw [ih _ (wadd_lt a x), wadd, Nat.mod_add_mod, Nat.add_assoc]

theorem swap_reset_loop_spec (l : List Nat) (a : Nat) (h : a < W) :
    swap_reset_loop a l = ((a + l.sum) % W, List.replicate l.length 0) := by
  induction l generalizing a with
  | nil => simpa [swap_reset_loop] using (Nat.mod_eq_of_lt h).symm
  | cons x xs ih =>
      rw [swap_reset_loop, ih (wadd a x) (wadd_lt a x)]
      simp only [List.sum_cons, List.length_cons, List.replicate_succ, wadd,
        Nat.mod_add_mod, Nat.add_assoc]

theorem min_swap_reset_loop_post (l : List Nat) (m : Nat) :
    (min_swap_reset_loop m l).2 = List.replicate l.length USIZE_MAX := by
  induction l generalizing m with
  | nil => rfl
  | cons x xs ih => simp [min_swap_reset_loop, ih, List.replicate_succ]

theorem max_swap_reset_loop_post (l : List Nat) (m : Nat) :
    (max_swap_reset_loop m l).2 = List.replicate l.length 0 := by
  induction l generalizing m with
  | nil => rfl
  | cons x xs ih => simp [max_swap_reset_loop, ih, List.replicate_succ]

theorem sum_count_swap_reset_loop_post (l : List (Nat × Nat)) (ts tc : Nat) :
    (sum_count_swap_reset_loop ts tc l).2 = List.replicate l.length (0, 0) := by
  induction l generalizing ts tc with
  | nil => rfl
  | cons x xs ih => simp [sum_count_swap_reset_loop, ih, List.replicate_succ]

theorem min?_getD_of_all_eq (l : List Nat) (a : Nat) (h : ∀ x ∈ l, x = a) :
    l.min?.getD a = a := by
  cases l with
  | nil => rfl
  | cons x xs =>
      have hx : x = a := h x (List.mem_cons_self _ _)
      have hxs : ∀ y ∈ xs, y = a := fun y hy => h y (List.mem_cons_of_mem _ hy)
      cases hm : xs.min? with
      | none => simp [List.min?_cons, hx, hm]
      | some m =>
          have hmem : m ∈ xs := List.min?_mem (fun a b => min_choice a b) hm
          simp [List.min?_cons, hx, hm, hxs m hmem]

theorem max?_getD_of_all_eq (l : List Nat) (a : Nat) (h : ∀ x ∈ l, x = a) :
    l.max?.getD a = a := by
  cases l with
  | nil => rfl
  | cons x xs =>
      have hx : x = a := h x (List.mem_cons_self _ _)
      have hxs : ∀ y ∈ xs, y = a := fun y hy => h y (List.mem_cons_of_mem _ hy)
      cases hm : xs.max? with
      | none => simp [List.max?_cons, hx, hm]
      | some m =>
          have hmem : m ∈ xs := List.max?_mem (fun a b => max_choice a b) hm
          simp [List.max?_cons, hx, hm, hxs m hmem]

/-! ### Claims -/

/-- C1: for every `Monotone` counter state, `value_and_reset()` returns the
same result as `value()` — the wrapping sum of all shards — and leaves every
shard unchanged; in particular after `Monotone::new()` followed by `add(1)`
three times (on the calling worker's slot), `value_and_reset()` returns 3 and
a subsequent `value()` still returns 3. -/
theorem monotone_value_and_reset_is_value :
    (∀ c : Monotone,
        c.value_and_reset = (CounterValue.Unsigned (c.components.sum % W), c) ∧
        c.value = CounterValue.Unsigned (c.components.sum % W)) ∧
    (∀ slot, slot < NUM_COMPONENTS →
        (((Monotone.new.add slot 1).add slot 1).add slot 1).value_and_reset =
          (CounterValue.Unsigned 3, ((Monotone.new.add slot 1).add slot 1).add slot 1) ∧
        (((Monotone.new.add slot 1).add slot 1).add slot 1).value =
          CounterValue.Unsigned 3) := by
  constructor
  · intro c
    have h := foldl_wadd_eq c.components 0 (by decide)
    constructor
    · simp [Monotone.value_and_reset, Monotone.total_value, h]
    · simp [Monotone.value, Monotone.total_value, h]
  · decide

theorem monotone_value_and_reset_is_value_witness :
    (0 : Nat) < NUM_COMPONENTS ∧
    (((Monotone.new.add 0 1).add 0 1).add 0 1).value = CounterValue.Unsigned 3 :=
  ⟨by decide, (monotone_value_and_reset_is_value.2 0 (by decide)).2⟩

/-- C2: for every `Unsigned` counter state, `value_and_reset()` returns the
wrapping sum of all shard values held immediately before the call (the same
number `value()` would have returned) and sets every shard to zero; in
particular after `Unsigned::new()` followed by `add(100)`, `value_and_reset()`
returns 100 and an immediately subsequent `value()` returns 0. -/
theorem unsigned_value_and_reset_resets :
    (∀ c : Unsigned,
        (c.value_and_reset).1 = CounterValue.Unsigned (c.components.sum % W) ∧
        (c.value_and_reset).1 = c.value ∧
        (c.value_and_reset).2.components = List.replicate c.components.length 0) ∧
    (∀ slot, slot < NUM_COMPONENTS →
        ((Unsigned.new.add slot 100).value_and_reset).1 = CounterValue.Unsigned 100 ∧
        ((Unsigned.new.add slot 100).value_and_reset).2.value = CounterValue.Unsigned 0) := by
  constructor
  · intro c
    have h := swap_reset_loop_spec c.components 0 (by decide)
    have h' := foldl_wadd_eq c.components 0 (by decide)
    refine ⟨?_, ?_, ?_⟩
    · simp [Unsigned.value_and_reset, h]
    · simp [Unsigned.value_and_reset, Unsigned.value, Unsigned.total_value, h, h']
    · simp [Unsigned.value_and_reset, h]
  · decide

theorem unsigned_value_and_reset_resets_witness :
    (0 : Nat) < NUM_COMPONENTS ∧
    ((Unsigned.new.add 0 100).value_and_reset).1 = CounterValue.Unsigned 100 :=
  ⟨by decide, (unsigned_value_and_reset_resets.2 0 (by decide)).1⟩

/-- C3: for an extremum tracker in which every shard still holds its sentinel
— a freshly constructed tracker, or the state `value_and_reset()` leaves
behind — `value()` reports the documented no-data encoding: `u64::MAX` for
`Minimum` and `0` for `Maximum`. -/
theorem extremum_sentinel_value :
    (∀ c : Minimum, (∀ x ∈ c.components, x = USIZE_MAX) →
        c.value = CounterValue.Unsigned USIZE_MAX) ∧
    (∀ c : Maximum, (∀ x ∈ c.components, x = 0) →
        c.value = CounterValue.Unsigned 0) ∧
    (∀ c : Minimum, ∀ x ∈ (c.value_and_reset).2.components, x = USIZE_MAX) ∧
    (∀ c : Maximum, ∀ x ∈ (c.value_and_reset).2.components, x = 0) ∧
    Minimum.new.value = CounterValue.Unsigned USIZE_MAX ∧
    Maximum.new.value = CounterValue.Unsigned 0 := by
  refine ⟨?_, ?_, ?_, ?_, ?_, ?_⟩
  · intro c h
    simp [Minimum.value, Minimum.raw_value, min?_getD_of_all_eq c.components USIZE_MAX h]
  · intro c h
    have hmax := max?_getD_of_all_eq c.components 0 h
    simp [Maximum.value, Maximum.raw_value, hmax]
  · intro c x hx
    rw [Minimum.value_and_reset] at hx
    simp only [min_swap_reset_loop_post] at hx
    exact List.eq_of_mem_replicate hx
  · intro c x hx
    rw [Maximum.value_and_reset] at hx
    simp only [max_swap_reset_loop_post] at hx
    exact List.eq_of_mem_replicate hx
  · decide
  · decide

theorem extremum_sentinel_value_witness :
    (∀ x ∈ Minimum.new.components, x = USIZE_MAX) ∧
    Minimum.new.value = CounterValue.Unsigned USIZE_MAX ∧
    (∀ x ∈ Maximum.new.components, x = 0) ∧
    Maximum.new.value = CounterValue.Unsigned 0 :=
  ⟨by decide, extremum_sentinel_value.1 Minimum.new (by decide),
   by decide, (extremum_sentinel_value.2.1) Maximum.new (by decide)⟩

/-- C4: `observe(v)` on an extremum tracker replaces the calling worker's
shard with `v` exactly when `v` is strictly better than the shard's current
value — strictly smaller for `Minimum`, strictly larger for `Maximum` — and
otherwise leaves the whole tracker unchanged; consequently after `new()`
followed by `observe(5)`, `observe(3)`, `observe(8)` on one worker, the
`Minimum` aggregate `value()` is 3 and the `Maximum` aggregate `value()`
is 8. -/
theorem extremum_observe_strictly_better :
    (∀ (c : Minimum) (slot v : Nat),
        (v < c.components.getD slot USIZE_MAX →
          c.observe slot v = { c with components := c.components.set slot v }) ∧
        (¬ v < c.components.getD slot USIZE_MAX → c.observe slot v = c)) ∧
    (∀ (c : Maximum) (slot v : Nat),
        (c.components.getD slot 0 < v →
          c.observe slot v = { c with components := c.components.set slot v }) ∧
        (¬ c.components.getD slot 0 < v → c.observe slot v = c)) ∧
    (∀ slot, slot < NUM_COMPONENTS →
        (((Minimum.new.observe slot 5).observe slot 3).observe slot 8).value =
          CounterValue.Unsigned 3 ∧
        (((Maximum.new.observe slot 5).observe slot 3).observe slot 8).value =
          CounterValue.Unsigned 8) := by
  refine ⟨?_, ?_, ?_⟩
  · intro c slot v
    have hdef : c.observe slot v =
        if v < c.components.getD slot USIZE_MAX then
          { c with components := c.components.set slot v }
        else c := rfl
    constructor
    · intro h
      rw [hdef, if_pos h]
    · intro h
      rw [hdef, if_neg h]
  · intro c slot v
    have hdef : c.observe slot v =
        if c.components.getD slot 0 < v then
          { c with components := c.components.set slot v }
        else c := rfl
    constructor
    · intro h
      rw [hdef, if_pos h]
    · intro h
      rw [hdef, if_neg h]
  · decide

theorem extremum_observe_strictly_better_witness :
    (0 : Nat) < NUM_COMPONENTS ∧
    (((Minimum.new.observe 0 5).observe 0 3).observe 0 8).value =
      CounterValue.Unsigned 3 :=
  ⟨by decide, (extremum_observe_strictly_better.2.2 0 (by decide)).1⟩

/-- C10: observing the sentinel value itself on an extremum tracker is a
no-op: `Minimum::observe(usize::MAX)` (given the machine invariant that every
shard holds a platform word, so is at most `usize::MAX`) and
`Maximum::observe(0)` leave the tracker unchanged in every state, because the
strictly-better compare-exchange loop never stores the sentinel; such an
observation is therefore indistinguishable, in the reported aggregate, from
never having observed at all. -/
theorem extremum_observe_sentinel_noop :
    (∀ (c : Minimum) (slot : Nat), (∀ x ∈ c.components, x ≤ USIZE_MAX) →
        c.observe slot USIZE_MAX = c) ∧
    (∀ (c : Maximum) (slot : Nat), c.observe slot 0 = c) ∧
    (∀ slot, slot < NUM_COMPONENTS →
        (Minimum.new.observe slot USIZE_MAX).value = Minimum.new.value ∧
        (Maximum.new.observe slot 0).value = Maximum.new.value) := by
  refine ⟨?_, ?_, ?_⟩
  · intro c slot h
    have hle : c.components.getD slot USIZE_MAX ≤ USIZE_MAX := by
      by_cases hs : slot < c.components.length
      · rw [List.getD_eq_getElem c.components USIZE_MAX hs]
        exact h _ (List.getElem_mem hs)
      · rw [List.getD_eq_default c.components USIZE_MAX (Nat.le_of_not_lt hs)]
    have hdef : c.observe slot USIZE_MAX =
        if USIZE_MAX < c.components.getD slot USIZE_MAX then
          { c with components := c.components.set slot USIZE_MAX }
        else c := rfl
    rw [hdef, if_neg (Nat.not_lt.mpr hle)]
  · intro c slot
    have hdef : c.observe slot 0 =
        if c.components.getD slot 0 < 0 then
          { c with components := c.components.set slot 0 }
        else c := rfl
    rw [hdef, if_neg (Nat.not_lt_zero _)]
  · decide

theorem extremum_observe_sentinel_noop_witness :
    (∀ x ∈ Minimum.new.components, x ≤ USIZE_MAX) ∧
    Minimum.new.observe 0 USIZE_MAX = Minimum.new :=
  ⟨by decide, extremum_observe_sentinel_noop.1 Minimum.new 0 (by decide)⟩

/-- C5: for every `Average` counter state, `average()` equals the floor of
total sum over total count and is `None` when the total count is 0, with the
`Observable` `value()` exposing that `None` case as 0; after `Average::new()`
followed by `observe(10)`, `observe(20)`, `observe(30)` on one worker,
`average()` is `Some 20`, `average_f64()` is exactly 20,
`sum_count_and_reset()` returns `(60, 3)` and zeroes every shard, so a
subsequent `average()` is `None`. -/
theorem average_floor_and_reset :
    (∀ c : Average,
        c.average =
          if c.count = 0 then none else some ⌊(c.sum : ℚ) / (c.count : ℚ)⌋₊) ∧
    (∀ c : Average, c.count = 0 → c.value = CounterValue.Unsigned 0) ∧
    (∀ c : Average,
        (c.sum_count_and_reset).2.components = List.replicate c.components.length (0, 0)) ∧
    (∀ slot, slot < NUM_COMPONENTS →
        (((Average.new.observe slot 10).observe slot 20).observe slot 30).average =
          some 20 ∧
        (((Average.new.observe slot 10).observe slot 20).observe slot 30).average_f64 =
          some 20 ∧
        (((Average.new.observe slot 10).observe slot 20).observe slot 30).sum_count_and_reset.1 =
          (60, 3) ∧
        ((((Average.new.observe slot 10).observe slot 20).observe slot 30).sum_count_and_reset.2).average =
          none) := by
  refine ⟨?_, ?_, ?_, ?_⟩
  · intro c
    rw [Average.average]
    by_cases h : c.count = 0
    · simp [h]
    · simp only [h, if_false]
      rw [Nat.floor_div_nat, Nat.floor_natCast]
  · intro c h
    simp [Average.value, Average.average, h]
  · intro c
    simp [Average.sum_count_and_reset, sum_count_swap_reset_loop_post]
  · have key : ∀ slot, slot < NUM_COMPONENTS →
        (((Average.new.observe slot 10).observe slot 20).observe slot 30).sum = 60 ∧
        (((Average.new.observe slot 10).observe slot 20).observe slot 30).count = 3 ∧
        (((Average.new.observe slot 10).observe slot 20).observe slot 30).sum_count_and_reset.1 =
          (60, 3) ∧
        ((((Average.new.observe slot 10).observe slot 20).observe slot 30).sum_count_and_reset.2).average =
          none := by decide
    intro slot hslot
    obtain ⟨hsum, hcount, hreset, hafter⟩ := key slot hslot
    refine ⟨?_, ?_, hreset, hafter⟩
    · rw [Average.average, hsum, hcount]
      norm_num
    · rw [Average.average_f64, hsum, hcount]
      norm_num

theorem average_floor_and_reset_witness :
    (0 : Nat) < NUM_COMPONENTS ∧
    (((Average.new.observe 0 10).observe 0 20).observe 0 30).average = some 20 ∧
    (((Average.new.observe 0 10).observe 0 20).observe 0 30).average_f64 = some 20 :=
  ⟨by decide, (average_floor_and_reset.2.2.2 0 (by decide)).1,
    (average_floor_and_reset.2.2.2 0 (by decide)).2.1⟩

/-- C6: `Rate::rate()` returns 0.0 and records the current total and the call
instant as baseline when no prior instant exists; on every later call it swaps
the current total into `last_value` (obtaining the old last value), updates
the timestamp to the call instant, and returns the saturating — never
negative — difference between the current total and the old last value
divided by the elapsed seconds, returning 0.0 instead whenever the elapsed
time is zero. -/
theorem rate_baseline_and_delta :
    ∀ (c : Rate) (now : ℚ),
      (c.last_instant = none →
        c.rate now =
          (0, { c with last_value := c.components.sum % W, last_instant := some now })) ∧
      (∀ t, c.last_instant = some t →
        (c.rate now).2 =
          { c with last_value := c.components.sum % W, last_instant := some now } ∧
        (c.rate now).1 =
          if 0 < max (now - t) 0 then
            (((c.components.sum % W) - c.last_value : Nat) : ℚ) / max (now - t) 0
          else 0) := by
  intro c now
  obtain ⟨name, comps, lv, li⟩ := c
  have htot : Rate.total_value ⟨name, comps, lv, li⟩ = comps.sum % W := by
    rw [Rate.total_value, foldl_wadd_eq comps 0 (by decide), Nat.zero_add]
  cases li with
  | none =>
      refine ⟨fun _ => ?_, fun t ht => by simp at ht⟩
      dsimp only [Rate.rate]
      rw [htot]
  | some t0 =>
      refine ⟨fun h => by simp at h, fun t ht => ?_⟩
      have ht' : t0 = t := by simpa using ht
      subst ht'
      dsimp only [Rate.rate]
      rw [htot]
      by_cases he : 0 < max (now - t0) 0
      · rw [if_pos he, if_pos he]
        exact ⟨rfl, rfl⟩
      · rw [if_neg he, if_neg he]
        exact ⟨rfl, rfl⟩

theorem rate_baseline_and_delta_witness :
    Rate.new.last_instant = none ∧
    Rate.new.rate 3 =
      (0, { Rate.new with last_value := 0, last_instant := some 3 }) ∧
    (⟨"", List.replicate NUM_COMPONENTS 0, 2, some 1⟩ : Rate).last_instant = some 1 ∧
    ((⟨"", List.replicate NUM_COMPONENTS 0, 2, some 1⟩ : Rate).rate 3).2 =
      { (⟨"", List.replicate NUM_COMPONENTS 0, 2, some 1⟩ : Rate) with
          last_value := 0, last_instant := some 3 } := by
  refine ⟨rfl, ?_, rfl, ?_⟩
  · have h := (rate_baseline_and_delta Rate.new 3).1 rfl
    rw [h]
    simp [Rate.new]
  · have h := ((rate_baseline_and_delta
      (⟨"", List.replicate NUM_COMPONENTS 0, 2, some 1⟩ : Rate) 3).2 1 rfl).1
    rw [h]
    simp

/-- C9: the slot assigner is total and never fails: for every value of the
shared assignment counter, a worker's first slot request performs one relaxed
fetch-and-increment (wrapping at the word size) and takes the old value modulo
`NUM_COMPONENTS = 64`, so the returned index is always in `[0, 64)` and every
access into a 64-element shard array indexed by it is in bounds; a subsequent
request from the same worker returns the cached index and leaves the shared
counter untouched. -/
theorem slot_assigner_total_in_bounds :
    (∀ next : Nat,
        get_next_slot_id next = (next % NUM_COMPONENTS, (next + 1) % W) ∧
        (get_next_slot_id next).1 < NUM_COMPONENTS) ∧
    (∀ (next : Nat) (shards : List Nat), shards.length = NUM_COMPONENTS →
        (get_next_slot_id next).1 < shards.length) ∧
    (∀ next : Nat,
        current_slot next none =
          ((get_next_slot_id next).1, (get_next_slot_id next).2,
            some (get_next_slot_id next).1)) ∧
    (∀ next : Nat,
        current_slot (current_slot next none).2.1 (current_slot next none).2.2 =
          ((current_slot next none).1, (current_slot next none).2.1,
            (current_slot next none).2.2)) := by
  refine ⟨?_, ?_, ?_, ?_⟩
  · intro next
    exact ⟨rfl, Nat.mod_lt _ (by decide)⟩
  · intro next shards h
    rw [h]
    exact Nat.mod_lt _ (by decide)
  · intro next
    rfl
  · intro next
    rfl

theorem slot_assigner_total_in_bounds_witness :
    (List.replicate NUM_COMPONENTS (0 : Nat)).length = NUM_COMPONENTS ∧
    (get_next_slot_id 130).1 < (List.replicate NUM_COMPONENTS (0 : Nat)).length :=
  ⟨by decide,
    slot_assigner_total_in_bounds.2.1 130 (List.replicate NUM_COMPONENTS 0) (by decide)⟩

/-- C7 counterexample: the claim "the `NonResettable<T>` adapter's
`value_and_reset()` ... leaves T's state unchanged" fails for the wrapped
counter `T = Rate` at the concrete state `Rate::new()` (and call instant 1):
`NonResettable<Rate>::value_and_reset()` delegates to `Rate::value()`, which
calls `rate()` and records a sampling baseline, so the state changes. -/
theorem nonresettable_rate_state_changes :
    (NonResettable.value_and_reset (Rate.ops 1) Rate.new).2 ≠ Rate.new := by
  intro h
  have hinst : (NonResettable.value_and_reset (Rate.ops 1) Rate.new).2.last_instant =
      some 1 := rfl
  rw [h] at hinst
  simp [Rate.new] at hinst

/-- C7 (amended): for every wrapped counter `T`, the `Resettable<T>` adapter's
`value()` returns exactly what `T`'s `value_and_reset()` returns (performing
`T`'s own reset-read), and the `NonResettable<T>` adapter's
`value_and_reset()` performs exactly `T`'s `value()`: it returns `T`'s
`value()` result and leaves `T`'s state unchanged whenever `T`'s `value()` is
a pure read — true of every variant except `Rate`, whose `value()` advances
its sampling baseline (though even there the shard internals stay untouched);
neither adapter touches shard internals. -/
theorem adapter_delegation :
    (∀ (σ : Type) (ops : CounterOps σ) (s : σ),
        Resettable.value ops s = ops.value_and_reset s ∧
        NonResettable.value_and_reset ops s = ops.value s ∧
        ((ops.value s).2 = s → (NonResettable.value_and_reset ops s).2 = s)) ∧
    (∀ s : Unsigned, (Unsigned.ops.value s).2 = s) ∧
    (∀ s : Monotone, (Monotone.ops.value s).2 = s) ∧
    (∀ (now : ℚ) (s : Rate),
        ((NonResettable.value_and_reset (Rate.ops now) s).2).components = s.components) := by
  refine ⟨?_, fun s => rfl, fun s => rfl, ?_⟩
  · intro σ ops s
    exact ⟨rfl, rfl, fun h => h⟩
  · intro now s
    obtain ⟨name, comps, lv, li⟩ := s
    cases li with
    | none => rfl
    | some t =>
        dsimp only [NonResettable.value_and_reset, Rate.ops, Rate.value, Rate.rate]
        by_cases he : 0 < max (now - t) 0
        · rw [if_pos he]
        · rw [if_neg he]

theorem adapter_delegation_witness :
    (Unsigned.ops.value Unsigned.new).2 = Unsigned.new ∧
    (NonResettable.value_and_reset Unsigned.ops Unsigned.new).2 = Unsigned.new :=
  ⟨rfl, (adapter_delegation.1 Unsigned Unsigned.ops Unsigned.new).2.2 rfl⟩

theorem with_label_eq_add_label (l : List (String × String)) (key value : String) :
    with_label l key value = add_label l key value := by
  induction l with
  | nil => rfl
  | cons p rest ih =>
      obtain ⟨k, v⟩ := p
      simp only [with_label, add_label]
      by_cases h : k = key
      · simp [h]
      · simp [h, ih]

theorem add_label_keys_of_mem (l : List (String × String)) (key value : String)
    (h : key ∈ l.map Prod.fst) :
    (add_label l key value).map Prod.fst = l.map Prod.fst := by
  induction l with
  | nil => simp at h
  | cons p rest ih =>
      obtain ⟨k, v⟩ := p
      simp only [add_label]
      by_cases hk : k = key
      · simp [hk]
      · have hmem : key ∈ rest.map Prod.fst := by
          simp only [List.map_cons, List.mem_cons] at h
          rcases h with h | h
          · exact absurd h.symm hk
          · exact h
        simp [hk, ih hmem]

theorem add_label_lookup (l : List (String × String)) (key value : String) :
    (add_label l key value).lookup key = some value := by
  induction l with
  | nil => simp [add_label, List.lookup]
  | cons p rest ih =>
      obtain ⟨k, v⟩ := p
      simp only [add_label]
      by_cases hk : k = key
      · simp [List.lookup, hk]
      · have hne : (key == k) = false := beq_eq_false_iff_ne.mpr fun h => hk h.symm
        simp [List.lookup, hk, hne, ih]

theorem add_label_mem_of_ne (l : List (String × String)) (key value : String)
    (p : String × String) :
    p ∈ l → p.1 ≠ key → p ∈ add_label l key value := by
  induction l with
  | nil => intro hp _; simp at hp
  | cons q rest ih =>
      obtain ⟨k, v⟩ := q
      intro hp hne
      simp only [add_label]
      by_cases hk : k = key
      · rw [if_pos hk]
        rcases List.mem_cons.mp hp with h | h
        · cases h
          exact absurd hk hne
        · exact List.mem_cons_of_mem _ h
      · rw [if_neg hk]
        rcases List.mem_cons.mp hp with h | h
        · rw [h]
          exact List.mem_cons_self _ _
        · exact List.mem_cons_of_mem _ (ih h hne)

theorem add_label_of_not_mem (l : List (String × String)) (key value : String)
    (h : key ∉ l.map Prod.fst) :
    add_label l key value = l ++ [(key, value)] := by
  induction l with
  | nil => rfl
  | cons q rest ih =>
      obtain ⟨k, v⟩ := q
      have hk : ¬ k = key := fun hkk => h (by simp [hkk])
      have hrest : key ∉ rest.map Prod.fst := fun hm => h (by simp [hm])
      simp only [add_label]
      rw [if_neg hk, ih hrest]
      simp

theorem add_label_keys_nodup (l : List (String × String)) (key value : String)
    (h : (l.map Prod.fst).Nodup) :
    ((add_label l key value).map Prod.fst).Nodup := by
  by_cases hm : key ∈ l.map Prod.fst
  · rw [add_label_keys_of_mem l key value hm]
    exact h
  · rw [add_label_of_not_mem l key value hm]
    simp only [List.map_append, List.map_cons, List.map_nil]
    rw [List.nodup_append]
    refine ⟨h, List.nodup_singleton _, ?_⟩
    intro a ha hb
    rw [List.mem_singleton] at hb
    exact hm (hb ▸ ha)

theorem add_label_foldl_nodup (ops : List (String × String)) :
    ((ops.foldl (fun l kv => add_label l kv.1 kv.2) []).map Prod.fst).Nodup := by
  have gen : ∀ (ops' : List (String × String)) (l : List (String × String)),
      (l.map Prod.fst).Nodup →
      ((ops'.foldl (fun l kv => add_label l kv.1 kv.2) l).map Prod.fst).Nodup := by
    intro ops'
    induction ops' with
    | nil => intro l h; exact h
    | cons kv rest ih =>
        intro l h
        exact ih _ (add_label_keys_nodup l kv.1 kv.2 h)
  exact gen ops [] (by simp)

/-- C8: for every `Labeled<T>` built from `Labeled::new()` by any sequence of
`with_label` / `add_label` calls, the label list never contains two entries
with the same key: adding a key that already exists updates that entry's value
in place at its original position (the key list is unchanged, the stored value
for the key becomes the new one, and entries with other keys are untouched),
and otherwise the new pair is appended, preserving insertion order; in
particular attaching `"k" -> "1"` and then `"k" -> "2"` yields exactly the one
label `"k" -> "2"`. -/
theorem labeled_no_duplicate_keys :
    (∀ l key value, with_label l key value = add_label l key value) ∧
    (∀ ops : List (String × String),
        ((ops.foldl (fun l kv => add_label l kv.1 kv.2) []).map Prod.fst).Nodup) ∧
    (∀ l key value, key ∈ l.map Prod.fst →
        (add_label l key value).map Prod.fst = l.map Prod.fst ∧
        (add_label l key value).lookup key = some value) ∧
    (∀ l key value p, p ∈ l → p.1 ≠ key → p ∈ add_label l key value) ∧
    (∀ l key value, key ∉ l.map Prod.fst →
        add_label l key value = l ++ [(key, value)]) ∧
    add_label (add_label ([]) ("k") ("1")) ("k") ("2") = [("k", "2")] :=
  ⟨with_label_eq_add_label, add_label_foldl_nodup, fun l key value h =>
    ⟨add_label_keys_of_mem l key value h, add_label_lookup l key value⟩,
   add_label_mem_of_ne, add_label_of_not_mem, by decide⟩

theorem labeled_no_duplicate_keys_witness :
    ("k") ∈ ([("k", "1")] : List (String × String)).map Prod.fst ∧
    (add_label ([("k", "1")]) ("k") ("2")).map Prod.fst =
      ([("k", "1")] : List (String × String)).map Prod.fst ∧
    (add_label ([("k", "1")]) ("k") ("2")).lookup ("k") = some ("2") :=
  ⟨by decide, (labeled_no_duplicate_keys.2.2.1 ([("k", "1")]) ("k") ("2") (by decide)).1,
    (labeled_no_duplicate_keys.2.2.1 ([("k", "1")]) ("k") ("2") (by decide)).2⟩

end Contatori
